import Mathlib

/-!
Verification development for tools/trace_replay_parser.py, the offline
trace-log replay parser: a line parser, a directory ingester, a merge
sort over a composite key, and a summary report generator.

The Python source is embedded shallowly:
* one parsed log line becomes an `Event` record (the per-line dict);
* the regex LINE_RE is embedded as the deterministic matcher `matchLine`
  (each quantifier in the pattern is either a character class followed by
  a literal that the class excludes, or the final greedy tail, so the
  regex is equivalent to this one-pass matcher);
* `collections.Counter` becomes an insertion-ordered association list;
* Python's stable `sort`/`sorted` become `List.mergeSort`;
* the filesystem is a list of directory entries, each a name, a
  directory flag and (for regular files) a list of raw lines;
* stdout/stderr become lists of emitted lines and an uncaught Python
  exception becomes `Except.error`.

Caveats kept out of scope (no claim below depends on them): the regex
classes \s and \d additionally match certain non-ASCII whitespace and
digit characters, which the embedding restricts to their ASCII parts,
and lines fed to the parser are assumed to contain no interior newline,
which file iteration guarantees.
-/

/-- Event record built for each log line matching LINE_RE: the dict with
keys file, ts, mono_ms, frame, tid, msg created in parse_log_file. -/
structure Event where
  file : String
  ts : String
  mono_ms : Nat
  frame : Nat
  tid : Nat
  msg : String
  deriving Repr, DecidableEq

/-- Whitespace characters matched by the regex class \s (ASCII part). -/
def isPySpace (c : Char) : Bool :=
  c = ' ' || c = '\t' || c = '\n' || c = '\x0b' || c = '\x0c' || c = '\r'

/-- Value of a decimal digit string, as computed by Python's int(). -/
def digitsToNat (ds : List Char) : Nat :=
  ds.foldl (fun acc c => acc * 10 + (c.toNat - '0'.toNat)) 0

/-- Greedy plus-quantifier: the maximal non-empty run of characters
satisfying p, together with the remainder; none when the run is empty. -/
def takeWhile1 (p : Char → Bool) (l : List Char) :
    Option (List Char × List Char) :=
  if l.takeWhile p = [] then none else some (l.takeWhile p, l.dropWhile p)

/-- Literal single character in the pattern. -/
def expectChar (c : Char) : List Char → Option (List Char)
  | [] => none
  | d :: rest => if d = c then some rest else none

/-- Literal substring in the pattern. -/
def expectStr (s : List Char) (l : List Char) : Option (List Char) :=
  if s.isPrefixOf l then some (l.drop s.length) else none

/-- Captured groups of LINE_RE, still as raw text. -/
structure RawMatch where
  ts : List Char
  mono : List Char
  frame : List Char
  tid : List Char
  msg : List Char
  deriving Repr, DecidableEq

/-- Matcher for LINE_RE anchored at the start of the line:
bracketed timestamp, then whitespace-separated bracketed mono_ms, frame
and tid digit groups, then whitespace and the greedy message tail. -/
def matchLine (l : List Char) : Option RawMatch := do
  let r1 ← expectChar '[' l
  let (ts, r2) ← takeWhile1 (fun c => c != ']') r1
  let r3 ← expectChar ']' r2
  let (_, r4) ← takeWhile1 isPySpace r3
  let r5 ← expectStr "[mono_ms=".data r4
  let (mono, r6) ← takeWhile1 Char.isDigit r5
  let r7 ← expectChar ']' r6
  let (_, r8) ← takeWhile1 isPySpace r7
  let r9 ← expectStr "[frame=".data r8
  let (frame, r10) ← takeWhile1 Char.isDigit r9
  let r11 ← expectChar ']' r10
  let (_, r12) ← takeWhile1 isPySpace r11
  let r13 ← expectStr "[tid=".data r12
  let (tid, r14) ← takeWhile1 Char.isDigit r13
  let r15 ← expectChar ']' r14
  let (_, msg) ← takeWhile1 isPySpace r15
  pure ⟨ts, mono, frame, tid, msg⟩

/-- Line Parser: run LINE_RE on one line; on a match build the event
record, converting the three digit groups with int(). -/
def parseLine (file : String) (line : String) : Option Event :=
  match matchLine line.data with
  | none => none
  | some m =>
    some ⟨file, ⟨m.ts⟩, digitsToNat m.mono, digitsToNat m.frame,
      digitsToNat m.tid, ⟨m.msg⟩⟩

/-- Python raw.rstrip with the newline character: drop every trailing
newline from the raw line before matching. -/
def rstripNl (s : String) : String :=
  ⟨(s.data.reverse.dropWhile (fun c => c == '\n')).reverse⟩

/-- File Ingester parse_log_file: parse every raw line of one file in
order, keeping the matches; the file's base name tags every record. -/
def parseLogFile (file : String) (rawLines : List String) : List Event :=
  rawLines.filterMap (fun raw => parseLine file (rstripNl raw))

example : parseLine "a.log" "[t0] [mono_ms=100] [frame=1] [tid=5] hello" =
    some ⟨"a.log", "t0", 100, 1, 5, "hello"⟩ := by decide

example : parseLine "a.log" "[t0] [mono_ms=100] [frame=1] [tid=5]" = none := by
  decide

example : parseLine "a.log" "[t0] [mono_ms=100] [frame=1] [tid=5] " =
    some ⟨"a.log", "t0", 100, 1, 5, ""⟩ := by decide

example : parseLine "a.log" "garbage" = none := by decide

example : parseLine "a.log" "[t0] [frame=1] [mono_ms=100] [tid=5] x" = none := by
  decide

/-- Fueled, structurally recursive copy of List.merge, so that merges
of concrete lists reduce inside the kernel (List.merge itself is
defined by well-founded recursion and does not). -/
def mergeFuel {α : Type} (le : α → α → Bool) : Nat → List α → List α → List α
  | _, [], ys => ys
  | _, xs, [] => xs
  | 0, xs, ys => xs ++ ys
  | fuel + 1, x :: xs, y :: ys =>
    if le x y then x :: mergeFuel le fuel xs (y :: ys)
    else y :: mergeFuel le fuel (x :: xs) ys

theorem mergeFuel_eq {α : Type} (le : α → α → Bool) :
    ∀ (fuel : Nat) (xs ys : List α), xs.length + ys.length ≤ fuel + 1 →
      mergeFuel le fuel xs ys = xs.merge ys le := by
  intro fuel
  induction fuel with
  | zero =>
    intro xs ys h
    match xs, ys, h with
    | [], ys, _ => simp [mergeFuel]
    | x :: xs, [], _ => simp [mergeFuel]
    | x :: xs, y :: ys, h =>
      simp only [List.length_cons] at h
      omega
  | succ n ih =>
    intro xs ys h
    match xs, ys with
    | [], ys => simp [mergeFuel]
    | x :: xs, [] => simp [mergeFuel]
    | x :: xs, y :: ys =>
      simp only [List.length_cons] at h
      rw [List.cons_merge_cons]
      simp only [mergeFuel]
      rw [ih _ _ (by simp only [List.length_cons]; omega),
        ih _ _ (by simp only [List.length_cons]; omega)]

/-- Fueled, structurally recursive copy of List.mergeSort, so that
sorts of concrete lists reduce inside the kernel (List.mergeSort itself
is defined by well-founded recursion and does not). -/
def mergeSortFuel {α : Type} (le : α → α → Bool) : Nat → List α → List α
  | _, [] => []
  | _, [a] => [a]
  | 0, l => l
  | fuel + 1, a :: b :: xs =>
    let lr := List.splitInTwo ⟨a :: b :: xs, rfl⟩
    let s1 := mergeSortFuel le fuel lr.1.1
    let s2 := mergeSortFuel le fuel lr.2.1
    mergeFuel le (s1.length + s2.length) s1 s2

theorem mergeSortFuel_eq {α : Type} (le : α → α → Bool) :
    ∀ (fuel : Nat) (l : List α), l.length ≤ fuel + 1 →
      mergeSortFuel le fuel l = l.mergeSort le := by
  intro fuel
  induction fuel with
  | zero =>
    intro l h
    match l, h with
    | [], _ => simp [mergeSortFuel]
    | [a], _ => simp [mergeSortFuel]
  | succ n ih =>
    intro l h
    match l with
    | [] => simp [mergeSortFuel]
    | [a] => simp [mergeSortFuel]
    | a :: b :: xs =>
      have h1 := (List.splitInTwo (n := xs.length + 2) ⟨a :: b :: xs, rfl⟩).1.2
      have h2 := (List.splitInTwo (n := xs.length + 2) ⟨a :: b :: xs, rfl⟩).2.2
      simp only [List.length_cons] at h
      rw [List.mergeSort]
      simp only [mergeSortFuel]
      rw [ih _ (by omega), ih _ (by omega)]
      rw [mergeFuel_eq _ _ _ _ (by omega)]

/-- Evaluation form of List.mergeSort, usable as a rewrite before
kernel reduction of a concrete sort. -/
theorem mergeSort_eq_fuel {α : Type} (l : List α) (le : α → α → Bool) :
    l.mergeSort le = mergeSortFuel le l.length l :=
  (mergeSortFuel_eq le l.length l (by omega)).symm

/-- Composite sort key of the Merge Engine, as a Boolean comparison:
the lexicographic order on the tuple (mono_ms, frame, file) produced by
the sort key lambda, with file names compared as plain text. -/
def eventKeyLe (a b : Event) : Bool :=
  decide (a.mono_ms < b.mono_ms ∨ (a.mono_ms = b.mono_ms ∧
    (a.frame < b.frame ∨ (a.frame = b.frame ∧ a.file ≤ b.file))))

/-- Merge Engine sort: Python's stable list.sort over the concatenated
per-file sequences, modelled by the stable List.mergeSort. -/
def sortEvents (events : List Event) : List Event :=
  events.mergeSort eventKeyLe

/-- Counter increment: counter[x] += 1 on an insertion-ordered count
map; a missing key is appended at the end with count 1. -/
def bump {α : Type} [DecidableEq α] : List (α × Nat) → α → List (α × Nat)
  | [], x => [(x, 1)]
  | p :: rest, x =>
    if p.1 = x then (p.1, p.2 + 1) :: rest else p :: bump rest x

/-- Insertion-ordered collections.Counter built over a list: keys appear
in first-encountered order. -/
def countOcc {α : Type} [DecidableEq α] (xs : List α) : List (α × Nat) :=
  xs.foldl bump []

/-- Comparison used by Counter.most_common: count descending; the sort
being stable, ties keep their insertion order. -/
def countGe {α : Type} (p q : α × Nat) : Bool :=
  decide (q.2 ≤ p.2)

/-- Counter.most_common: entries stably sorted by count descending. -/
def mostCommon {α : Type} (counts : List (α × Nat)) : List (α × Nat) :=
  counts.mergeSort countGe

/-- Sum of the counts of a count map. -/
def sumCounts {α : Type} (counts : List (α × Nat)) : Nat :=
  (counts.map (fun p => p.2)).sum

/-- Substring test, Python's needle in haystack on str. -/
def containsSub (needle hay : String) : Bool :=
  decide (needle.data <:+: hay.data)

/-- Anomaly keyword test applied to a message in summarize's loop. -/
def isAnomaly (msg : String) : Bool :=
  containsSub "anomaly_detector" msg || containsSub "stall_warning" msg ||
    containsSub "memory_growth_warning" msg

/-- Single pass of summarize's for-loop: build the per-file counter, the
per-frame counter and the anomaly list in merge order. -/
def scanEvents (events : List Event) :
    List (String × Nat) × List (Nat × Nat) × List Event :=
  events.foldl
    (fun acc e =>
      (bump acc.1 e.file, bump acc.2.1 e.frame,
        if isAnomaly e.msg then acc.2.2 ++ [e] else acc.2.2))
    ([], [], [])

/-- Formatted per-file count line. -/
def fmtFileCount (p : String × Nat) : String :=
  "  " ++ p.1 ++ ": " ++ toString p.2

/-- Formatted per-frame count line. -/
def fmtFrameCount (p : Nat × Nat) : String :=
  "  frame=" ++ toString p.1 ++ " events=" ++ toString p.2

/-- Formatted anomaly line. -/
def fmtAnomaly (e : Event) : String :=
  "  ts=" ++ e.ts ++ " frame=" ++ toString e.frame ++ " file=" ++ e.file ++
    " msg=" ++ e.msg

/-- Report Generator summarize: the exact sequence of lines printed to
stdout, section by section. -/
def summarize (events : List Event) : List String :=
  let s := scanEvents events
  let anomalies := s.2.2
  ["total_events=" ++ toString events.length] ++
    ["events_by_component_log:"] ++
    (mostCommon s.1).map fmtFileCount ++
    ["top_frames_by_event_count:"] ++
    ((mostCommon s.2.1).take 10).map fmtFrameCount ++
    ["anomaly_events:"] ++
    (if anomalies.isEmpty then ["  (none)"]
     else (anomalies.drop (anomalies.length - 50)).map fmtAnomaly)

/-- Directory entry as seen by the directory walk: a base name, whether
the entry is a subdirectory, and the raw lines of the file when it is a
regular file. -/
structure DirEntry where
  name : String
  isDir : Bool
  rawLines : List String
  deriving Repr, DecidableEq

/-- Lexicographic string comparison, character by character by code
point, as Python compares the path strings when sorting; stated on the
character lists so that concrete comparisons reduce in the kernel. -/
def strLeB (a b : String) : Bool :=
  decide (a.data ≤ b.data)

theorem strLeB_iff (a b : String) : strLeB a b = true ↔ a ≤ b := by
  rw [strLeB, decide_eq_true_eq, String.le_iff_toList_le]
  rfl

/-- Discovery step sorted(trace_dir.glob("*.log")): the entries of any
kind whose base name matches the pattern, sorted by name (within one
directory, path order is base-name order); glob's star also matches
names starting with a dot, so the pattern means: ends with ".log". -/
def discoverLogs (entries : List DirEntry) : List DirEntry :=
  (entries.filter (fun e => ".log".data.isSuffixOf e.name.data)).mergeSort
    (fun a b => strLeB a.name b.name)

/-- Opening one discovered entry: path.open fails with
IsADirectoryError when the entry is a subdirectory, otherwise the file
is ingested. -/
def openAndParse (e : DirEntry) : Except String (List Event) :=
  if e.isDir then Except.error ("IsADirectoryError: " ++ e.name)
  else Except.ok (parseLogFile e.name e.rawLines)

/-- Observable outcome of one complete run of main. -/
structure RunOutput where
  exitCode : Nat
  stdout : List String
  stderr : List String
  deriving Repr, DecidableEq

/-- Body of main after argument parsing: the directory is either absent
or not a directory (none) or a listing of entries (some); an uncaught
exception while ingesting is an Except.error. -/
def runMain (path : String) (dir : Option (List DirEntry)) :
    Except String RunOutput :=
  match dir with
  | none =>
    Except.ok ⟨2, [], ["error: trace_dir not found: " ++ path]⟩
  | some entries =>
    let logs := discoverLogs entries
    if logs.isEmpty then
      Except.ok ⟨2, [], ["error: no .log files found in " ++ path]⟩
    else
      match logs.mapM openAndParse with
      | Except.error e => Except.error e
      | Except.ok eventLists =>
        Except.ok ⟨0, summarize (sortEvents eventLists.flatten), []⟩

example :
    runMain "d" (some [⟨"b.log", false,
        ["[t0] [mono_ms=100] [frame=1] [tid=5] hello\n",
         "[t0] [mono_ms=50] [frame=2] [tid=5] anomaly_detector fired\n"]⟩]) =
      Except.ok ⟨0,
        ["total_events=2", "events_by_component_log:", "  b.log: 2",
         "top_frames_by_event_count:", "  frame=2 events=1",
         "  frame=1 events=1", "anomaly_events:",
         "  ts=t0 frame=2 file=b.log msg=anomaly_detector fired"], []⟩ := by
  simp only [runMain, discoverLogs, sortEvents, summarize, mostCommon,
    mergeSort_eq_fuel]
  rfl

/-- Composite key comparison of the specification: the tuple
(mono_ms, frame, source_name) compared lexicographically, the file name
as plain text. -/
def keyLE (a b : Event) : Prop :=
  a.mono_ms < b.mono_ms ∨ (a.mono_ms = b.mono_ms ∧
    (a.frame < b.frame ∨ (a.frame = b.frame ∧ a.file ≤ b.file)))

theorem eventKeyLe_iff (a b : Event) : eventKeyLe a b = true ↔ keyLE a b := by
  simp only [eventKeyLe, keyLE, decide_eq_true_eq]

theorem eventKeyLe_trans (a b c : Event) :
    eventKeyLe a b → eventKeyLe b c → eventKeyLe a c := by
  simp only [eventKeyLe, decide_eq_true_eq]
  intro hab hbc
  rcases hab with h1 | ⟨e1, h1⟩ <;> rcases hbc with h2 | ⟨e2, h2⟩
  · exact Or.inl (h1.trans h2)
  · exact Or.inl (e2 ▸ h1)
  · exact Or.inl (e1 ▸ h2)
  · refine Or.inr ⟨e1.trans e2, ?_⟩
    rcases h1 with h1 | ⟨f1, h1⟩ <;> rcases h2 with h2 | ⟨f2, h2⟩
    · exact Or.inl (h1.trans h2)
    · exact Or.inl (f2 ▸ h1)
    · exact Or.inl (f1 ▸ h2)
    · exact Or.inr ⟨f1.trans f2, h1.trans h2⟩

theorem eventKeyLe_total (a b : Event) :
    eventKeyLe a b || eventKeyLe b a := by
  simp only [Bool.or_eq_true, eventKeyLe, decide_eq_true_eq]
  rcases Nat.lt_trichotomy a.mono_ms b.mono_ms with h | h | h
  · exact Or.inl (Or.inl h)
  · rcases Nat.lt_trichotomy a.frame b.frame with h2 | h2 | h2
    · exact Or.inl (Or.inr ⟨h, Or.inl h2⟩)
    · rcases le_total a.file b.file with h3 | h3
      · exact Or.inl (Or.inr ⟨h, Or.inr ⟨h2, h3⟩⟩)
      · exact Or.inr (Or.inr ⟨h.symm, Or.inr ⟨h2.symm, h3⟩⟩)
    · exact Or.inr (Or.inr ⟨h.symm, Or.inl h2⟩)
  · exact Or.inr (Or.inl h)

/-- C1: the merged event sequence produced by the Merge Engine is
sorted ascending by the composite key (mono_ms, frame, source_name):
every adjacent pair a, b of the output satisfies
(a.mono_ms, a.frame, a.file) <= (b.mono_ms, b.frame, b.file)
lexicographically, the file name compared as plain text. -/
theorem merged_sorted_by_composite_key (l : List Event) :
    (sortEvents l).Chain' keyLE := by
  have hp := List.sorted_mergeSort eventKeyLe_trans eventKeyLe_total l
  exact (hp.imp (fun h => (eventKeyLe_iff _ _).mp h)).chain'

/-- C5: the Line Parser is a total function from one line of text to
either a complete event record (source_name filled with the file's base
name, all other five attributes filled from the match) or no record at
all; malformed input yields none rather than an error or a partial
record. -/
theorem parseLine_total_or_none (file line : String) :
    (∃ e : Event, parseLine file line = some e ∧ e.file = file) ∨
      parseLine file line = none := by
  unfold parseLine
  cases matchLine line.data with
  | none => exact Or.inr rfl
  | some m => exact Or.inl ⟨_, rfl, rfl⟩

theorem sumCounts_bump {α : Type} [DecidableEq α] (acc : List (α × Nat))
    (x : α) : sumCounts (bump acc x) = sumCounts acc + 1 := by
  induction acc with
  | nil => rfl
  | cons p rest ih =>
    by_cases h : p.1 = x
    · simp [bump, h, sumCounts]
      omega
    · simp only [bump, if_neg h]
      simp only [sumCounts, List.map_cons, List.sum_cons] at ih ⊢
      omega

theorem sumCounts_foldl_bump {α : Type} [DecidableEq α] (xs : List α) :
    ∀ acc : List (α × Nat),
      sumCounts (xs.foldl bump acc) = sumCounts acc + xs.length := by
  induction xs with
  | nil => intro acc; simp
  | cons x xs ih =>
    intro acc
    simp only [List.foldl_cons, List.length_cons, ih, sumCounts_bump]
    omega

theorem sumCounts_countOcc {α : Type} [DecidableEq α] (xs : List α) :
    sumCounts (countOcc xs) = xs.length := by
  simpa [sumCounts] using sumCounts_foldl_bump xs []

theorem sumCounts_mostCommon {α : Type} (counts : List (α × Nat)) :
    sumCounts (mostCommon counts) = sumCounts counts := by
  unfold sumCounts mostCommon
  exact ((List.mergeSort_perm counts countGe).map (fun p => p.2)).sum_eq

/-- Unfolding of summarize's single for-loop: projected out, it builds
the per-file counter, the per-frame counter and the filtered anomaly
list of the scanned events. -/
theorem scanEvents_spec (events : List Event) :
    ∀ acc : List (String × Nat) × List (Nat × Nat) × List Event,
      events.foldl
          (fun acc e =>
            (bump acc.1 e.file, bump acc.2.1 e.frame,
              if isAnomaly e.msg then acc.2.2 ++ [e] else acc.2.2)) acc =
        ((events.map (fun e => e.file)).foldl bump acc.1,
          (events.map (fun e => e.frame)).foldl bump acc.2.1,
          acc.2.2 ++ events.filter (fun e => isAnomaly e.msg)) := by
  induction events with
  | nil => intro acc; simp
  | cons e rest ih =>
    intro acc
    simp only [List.foldl_cons, List.map_cons, List.filter_cons]
    rw [ih]
    by_cases h : isAnomaly e.msg
    · simp [h]
    · simp [h]

theorem scanEvents_fst (events : List Event) :
    (scanEvents events).1 = countOcc (events.map (fun e => e.file)) := by
  rw [scanEvents, scanEvents_spec, countOcc]

theorem scanEvents_frames (events : List Event) :
    (scanEvents events).2.1 = countOcc (events.map (fun e => e.frame)) := by
  rw [scanEvents, scanEvents_spec, countOcc]

theorem scanEvents_anomalies (events : List Event) :
    (scanEvents events).2.2 =
      events.filter (fun e => isAnomaly e.msg) := by
  rw [scanEvents, scanEvents_spec]
  simp

/-- C2: the reported total_events value, the sum of the per-source
counts printed in the events_by_component_log section, and the number
of raw lines across all ingested files that matched the line grammar
are all the same number. -/
theorem total_events_consistent (files : List (String × List String)) :
    sumCounts (mostCommon (scanEvents
        (sortEvents ((files.map (fun f => parseLogFile f.1 f.2)).flatten))).1) =
      (sortEvents ((files.map (fun f => parseLogFile f.1 f.2)).flatten)).length ∧
    (sortEvents ((files.map (fun f => parseLogFile f.1 f.2)).flatten)).length =
      (files.map (fun f =>
        f.2.countP (fun raw => (parseLine f.1 (rstripNl raw)).isSome))).sum := by
  constructor
  · rw [sumCounts_mostCommon, scanEvents_fst, sumCounts_countOcc,
      List.length_map]
  · rw [sortEvents, List.length_mergeSort, List.length_flatten]
    rw [List.map_map]
    refine congrArg List.sum (List.map_congr_left ?_)
    intro f _
    simp [parseLogFile, List.length_filterMap_eq_countP, Function.comp]

theorem countGe_trans {α : Type} (a b c : α × Nat) :
    countGe a b → countGe b c → countGe a c := by
  simp only [countGe, decide_eq_true_eq]
  omega

theorem countGe_total {α : Type} (a b : α × Nat) :
    countGe a b || countGe b a := by
  simp only [Bool.or_eq_true, countGe, decide_eq_true_eq]
  omega

theorem mostCommon_sorted {α : Type} (c : List (α × Nat)) :
    (mostCommon c).Pairwise (fun p q => q.2 ≤ p.2) := by
  have hp := List.sorted_mergeSort countGe_trans countGe_total c
  exact hp.imp (fun h => by simpa [countGe, decide_eq_true_eq] using h)

/-- Stability of most_common: the entries holding any one count value
appear in the sorted output in exactly their order in the insertion
ordered counter. -/
theorem mostCommon_stable {α : Type} [DecidableEq α] (c : List (α × Nat))
    (n : Nat) :
    (mostCommon c).filter (fun p => p.2 = n) =
      c.filter (fun p => p.2 = n) := by
  have hmem : ∀ p ∈ c.filter (fun p : α × Nat => p.2 = n), p.2 = n := by
    intro p hp
    simpa using (List.mem_filter.mp hp).2
  have hpair : (c.filter (fun p : α × Nat => p.2 = n)).Pairwise
      (fun p q => countGe p q = true) := by
    apply List.pairwise_of_forall_mem_list
    intro p hp q hq
    simp only [countGe, decide_eq_true_eq, hmem p hp, hmem q hq, le_refl]
  have hsub : List.Sublist (c.filter (fun p : α × Nat => p.2 = n))
      (mostCommon c) :=
    List.sublist_mergeSort countGe_trans countGe_total hpair
      (List.filter_sublist c)
  have hsub2 : List.Sublist (c.filter (fun p : α × Nat => p.2 = n))
      ((mostCommon c).filter (fun p => p.2 = n)) := by
    have := hsub.filter (fun p : α × Nat => p.2 = n)
    rwa [List.filter_filter, (by
      funext p
      simp [Bool.and_self] : (fun p : α × Nat =>
        (decide (p.2 = n) && decide (p.2 = n))) = fun p : α × Nat =>
          decide (p.2 = n))] at this
  refine (hsub2.eq_of_length ?_).symm
  exact (((List.mergeSort_perm c countGe).filter _).length_eq).symm

/-- C4: the per-source and the per-frame count lists are sorted
descending by count, ties keeping the first-encountered order of the
counting pass (the insertion order of the counters that summarize
builds), and the displayed per-frame list has at most 10 entries. -/
theorem count_lists_sorted_desc (events : List Event) :
    ((mostCommon (scanEvents events).1).Chain' (fun p q => q.2 ≤ p.2) ∧
      ∀ n, (mostCommon (scanEvents events).1).filter (fun p => p.2 = n) =
        (scanEvents events).1.filter (fun p => p.2 = n)) ∧
    (((mostCommon (scanEvents events).2.1).take 10).Chain'
        (fun p q => q.2 ≤ p.2) ∧
      ∀ n, (mostCommon (scanEvents events).2.1).filter (fun p => p.2 = n) =
        (scanEvents events).2.1.filter (fun p => p.2 = n)) ∧
    ((mostCommon (scanEvents events).2.1).take 10).length ≤ 10 := by
  refine ⟨⟨(mostCommon_sorted _).chain', fun n => mostCommon_stable _ n⟩,
    ⟨((mostCommon_sorted _).sublist (List.take_sublist _ _)).chain',
      fun n => mostCommon_stable _ n⟩, ?_⟩
  simp [List.length_take_le]

/-- Expected anomaly section of the report, written from the
specification: the records whose message holds an anomaly keyword, in
merge order, truncated to the last 50, or the placeholder line when
there are none. -/
def anomalySectionSpec (events : List Event) : List String :=
  let hits := events.filter (fun e => isAnomaly e.msg)
  if hits = [] then ["  (none)"]
  else (hits.drop (hits.length - 50)).map fmtAnomaly

theorem ne_of_head_ne (s t : String)
    (h : s.data.head? ≠ t.data.head?) : s ≠ t := fun e =>
  h (congrArg (fun x : String => x.data.head?) e)

theorem fmtFileCount_ne_marker (p : String × Nat) :
    fmtFileCount p ≠ "anomaly_events:" := by
  apply ne_of_head_ne
  intro h
  rw [show (fmtFileCount p).data.head? = some ' ' from rfl] at h
  exact absurd h (by decide)

theorem fmtFrameCount_ne_marker (p : Nat × Nat) :
    fmtFrameCount p ≠ "anomaly_events:" := by
  apply ne_of_head_ne
  intro h
  rw [show (fmtFrameCount p).data.head? = some ' ' from rfl] at h
  exact absurd h (by decide)

theorem total_line_ne_marker (n : Nat) :
    "total_events=" ++ toString n ≠ "anomaly_events:" := by
  apply ne_of_head_ne
  intro h
  rw [show ("total_events=" ++ toString n).data.head? = some 't' from rfl] at h
  exact absurd h (by decide)

/-- C3: the anomaly_events section of the report is exactly the
specified content: the records whose message contains one of the three
keywords as a plain substring, in merge order, truncated to at most the
last 50; the placeholder line when there are none.  The marker line
occurs nowhere earlier, so the section is well delimited. -/
theorem anomaly_section_exact (events : List Event) :
    ∃ pre : List String,
      summarize events = pre ++ "anomaly_events:" :: anomalySectionSpec events ∧
      "anomaly_events:" ∉ pre ∧ (anomalySectionSpec events).length ≤ 50 := by
  refine ⟨["total_events=" ++ toString events.length,
      "events_by_component_log:"] ++
      (mostCommon (scanEvents events).1).map fmtFileCount ++
      ["top_frames_by_event_count:"] ++
      ((mostCommon (scanEvents events).2.1).take 10).map fmtFrameCount,
    ?_, ?_, ?_⟩
  · simp only [summarize, anomalySectionSpec, scanEvents_anomalies,
      List.isEmpty_iff, List.append_assoc, List.cons_append,
      List.singleton_append, List.nil_append]
  · intro hmem
    rcases List.mem_append.mp hmem with h | h
    · rcases List.mem_append.mp h with h | h
      · rcases List.mem_append.mp h with h | h
        · rcases List.mem_cons.mp h with h | h
          · exact total_line_ne_marker events.length h.symm
          · rcases List.mem_cons.mp h with h | h
            · exact absurd h (by decide)
            · exact List.not_mem_nil _ h
        · obtain ⟨p, _, hp⟩ := List.mem_map.mp h
          exact fmtFileCount_ne_marker p hp
      · rcases List.mem_cons.mp h with h | h
        · exact absurd h (by decide)
        · exact List.not_mem_nil _ h
    · obtain ⟨p, _, hp⟩ := List.mem_map.mp h
      exact fmtFrameCount_ne_marker p hp
  · rw [anomalySectionSpec]
    by_cases h : events.filter (fun e => isAnomaly e.msg) = []
    · simp [h]
    · simp only [h, if_false, List.length_map, List.length_drop]
      omega

/-- Directory listing holding one regular .log file and one
subdirectory whose name also ends in .log. -/
def mixedDir : List DirEntry :=
  [⟨"a.log", false, ["[t] [mono_ms=1] [frame=2] [tid=3] hi"]⟩,
    ⟨"sub.log", true, []⟩]

/-- C6 as stated is false: a subdirectory whose name ends in .log is
not ignored; glob enumerates it with the files and the run then fails
when the ingester tries to open it. -/
theorem subdir_log_not_ignored :
    discoverLogs mixedDir ≠
      mixedDir.filter
        (fun e => !e.isDir && ".log".data.isSuffixOf e.name.data) ∧
    runMain "d" (some mixedDir) =
      Except.error ("IsADirectoryError: " ++ "sub.log") := by
  constructor
  · simp only [discoverLogs, mergeSort_eq_fuel]
    decide
  · simp only [runMain, discoverLogs, mergeSort_eq_fuel]
    rfl

theorem nameLe_trans (a b c : DirEntry) :
    strLeB a.name b.name → strLeB b.name c.name → strLeB a.name c.name := by
  simp only [strLeB_iff]
  exact le_trans

theorem nameLe_total (a b : DirEntry) :
    strLeB a.name b.name || strLeB b.name a.name := by
  simp only [Bool.or_eq_true, strLeB_iff]
  exact le_total a.name b.name

/-- C6 amended: the enumerated entries are exactly the entries directly
inside the directory whose name ends in .log, of any kind (a
subdirectory with such a name is enumerated too, and ingesting it then
aborts the run), listed in sorted-by-name order before ingestion
begins; non-.log entries are ignored. -/
theorem discovery_exact (entries : List DirEntry) :
    (discoverLogs entries).Perm
      (entries.filter (fun e => ".log".data.isSuffixOf e.name.data)) ∧
    (discoverLogs entries).Chain' (fun a b => a.name ≤ b.name) ∧
    ∀ e, e ∈ discoverLogs entries ↔
      e ∈ entries ∧ ".log".data.isSuffixOf e.name.data := by
  refine ⟨List.mergeSort_perm _ _, ?_, ?_⟩
  · have hp := List.sorted_mergeSort nameLe_trans nameLe_total
      (entries.filter (fun e => ".log".data.isSuffixOf e.name.data))
    exact (hp.imp (fun h => (strLeB_iff _ _).mp h)).chain'
  · intro e
    rw [discoverLogs, List.mem_mergeSort, List.mem_filter]

/-- Directory listing with no .log entry at all. -/
def noLogDir : List DirEntry :=
  [⟨"readme.txt", false, []⟩]

/-- C7 as stated is false in the empty-directory case: the message
printed for a directory without .log files is
"error: no .log files found in <path>", which contains a single colon
and so cannot be decomposed as "error: <reason>: <path>". -/
theorem no_log_message_form_fails :
    runMain "d" (some noLogDir) =
      Except.ok ⟨2, [], ["error: no .log files found in d"]⟩ ∧
    ¬ ∃ reason : String,
      "error: no .log files found in d" =
        "error: " ++ reason ++ ": " ++ "d" := by
  constructor
  · simp only [runMain, discoverLogs, mergeSort_eq_fuel]
    rfl
  · rintro ⟨r, h⟩
    have hc : ("error: no .log files found in d").data.count ':' =
        ("error: " ++ r ++ ": " ++ "d").data.count ':' := by rw [h]
    simp only [String.data_append, List.count_append] at hc
    rw [show ("error: no .log files found in d").data.count ':' = 1 from rfl,
      show ("error: ").data.count ':' = 1 from rfl,
      show (": ").data.count ':' = 1 from rfl,
      show ("d").data.count ':' = 0 from rfl] at hc
    omega

/-- C7 amended: when the path does not exist or is not a directory, and
when the directory holds no .log entry, the run exits with code 2 and
prints nothing to standard output; the first case reports
"error: trace_dir not found: <path>" on standard error (matching the
form "error: <reason>: <path>") while the second reports
"error: no .log files found in <path>" (no colon before the path). -/
theorem validation_errors (path : String) :
    runMain path none =
      Except.ok ⟨2, [], ["error: trace_dir not found: " ++ path]⟩ ∧
    ∀ entries : List DirEntry, discoverLogs entries = [] →
      runMain path (some entries) =
        Except.ok ⟨2, [], ["error: no .log files found in " ++ path]⟩ := by
  constructor
  · rfl
  · intro entries h
    simp only [runMain, h]
    rfl

theorem validation_errors_witness :
    runMain "d" (some noLogDir) =
      Except.ok ⟨2, [], ["error: no .log files found in " ++ "d"]⟩ :=
  (validation_errors "d").2 noLogDir (by
    simp only [discoverLogs, mergeSort_eq_fuel]
    rfl)

theorem takeWhile_run (p : Char → Bool) :
    ∀ (run rest : List Char), (∀ c ∈ run, p c = true) →
      (∀ c, rest.head? = some c → p c = false) →
      (run ++ rest).takeWhile p = run ∧ (run ++ rest).dropWhile p = rest := by
  intro run
  induction run with
  | nil =>
    intro rest _ hrest
    cases rest with
    | nil => simp
    | cons c cs =>
      simp [List.takeWhile_cons, List.dropWhile_cons, hrest c rfl]
  | cons a run ih =>
    intro rest hall hrest
    have ha : p a = true := hall a (List.mem_cons_self a run)
    have h12 := ih rest (fun c hc => hall c (List.mem_cons_of_mem a hc)) hrest
    simp [List.takeWhile_cons, List.dropWhile_cons, ha, h12.1, h12.2]

/-- Behaviour of a greedy plus-quantifier at a boundary: it consumes
exactly the run of characters in its class when the next character (if
any) falls outside the class. -/
theorem takeWhile1_run (p : Char → Bool) (run rest : List Char)
    (hne : run ≠ []) (hall : ∀ c ∈ run, p c = true)
    (hrest : ∀ c, rest.head? = some c → p c = false) :
    takeWhile1 p (run ++ rest) = some (run, rest) := by
  have h12 := takeWhile_run p run rest hall hrest
  rw [takeWhile1, h12.1, h12.2, if_neg hne]

theorem expectStr_append (s rest : List Char) :
    expectStr s (s ++ rest) = some rest := by
  rw [expectStr,
    if_pos (List.isPrefixOf_iff_prefix.mpr (List.prefix_append s rest)),
    List.drop_left]

/-- Evaluation of LINE_RE on any line assembled from its grammar: a
bracketed timestamp free of ']', three whitespace-separated bracketed
digit groups, then at least one whitespace character and a message not
starting with whitespace.  The captured groups are exactly the
assembled pieces. -/
theorem expectChar_cons (c : Char) (rest : List Char) :
    expectChar c (c :: rest) = some rest := by
  simp [expectChar]

theorem matchLine_build (ts ws1 d1 ws2 d2 ws3 d3 ws4 msg : List Char)
    (hts : ts ≠ []) (hts2 : ∀ c ∈ ts, (c != ']') = true)
    (hws1 : ws1 ≠ []) (hws1a : ∀ c ∈ ws1, isPySpace c = true)
    (hd1 : d1 ≠ []) (hd1a : ∀ c ∈ d1, c.isDigit = true)
    (hws2 : ws2 ≠ []) (hws2a : ∀ c ∈ ws2, isPySpace c = true)
    (hd2 : d2 ≠ []) (hd2a : ∀ c ∈ d2, c.isDigit = true)
    (hws3 : ws3 ≠ []) (hws3a : ∀ c ∈ ws3, isPySpace c = true)
    (hd3 : d3 ≠ []) (hd3a : ∀ c ∈ d3, c.isDigit = true)
    (hws4 : ws4 ≠ []) (hws4a : ∀ c ∈ ws4, isPySpace c = true)
    (hmsg : ∀ c, msg.head? = some c → isPySpace c = false) :
    matchLine ('[' :: (ts ++ (']' :: (ws1 ++ ("[mono_ms=".data ++ (d1 ++ (']' :: (ws2 ++ ("[frame=".data ++ (d2 ++ (']' :: (ws3 ++ ("[tid=".data ++ (d3 ++ (']' :: (ws4 ++ msg)))))))))))))))) =
      some ⟨ts, d1, d2, d3, msg⟩ := by
  have e16 : takeWhile1 isPySpace (ws4 ++ msg) = some (ws4, msg) :=
    takeWhile1_run _ _ _ hws4 hws4a hmsg
  have e13 : takeWhile1 Char.isDigit (d3 ++ (']' :: (ws4 ++ msg))) = some (d3, ']' :: (ws4 ++ msg)) :=
    takeWhile1_run _ _ _ hd3 hd3a (fun c hc => by cases hc; rfl)
  have e12 : expectStr "[tid=".data ("[tid=".data ++ (d3 ++ (']' :: (ws4 ++ msg)))) = some (d3 ++ (']' :: (ws4 ++ msg))) :=
    expectStr_append _ _
  have e11 : takeWhile1 isPySpace (ws3 ++ ("[tid=".data ++ (d3 ++ (']' :: (ws4 ++ msg))))) = some (ws3, "[tid=".data ++ (d3 ++ (']' :: (ws4 ++ msg)))) :=
    takeWhile1_run _ _ _ hws3 hws3a (fun c hc => by cases hc; rfl)
  have e9 : takeWhile1 Char.isDigit (d2 ++ (']' :: (ws3 ++ ("[tid=".data ++ (d3 ++ (']' :: (ws4 ++ msg))))))) = some (d2, ']' :: (ws3 ++ ("[tid=".data ++ (d3 ++ (']' :: (ws4 ++ msg)))))) :=
    takeWhile1_run _ _ _ hd2 hd2a (fun c hc => by cases hc; rfl)
  have e8 : expectStr "[frame=".data ("[frame=".data ++ (d2 ++ (']' :: (ws3 ++ ("[tid=".data ++ (d3 ++ (']' :: (ws4 ++ msg)))))))) = some (d2 ++ (']' :: (ws3 ++ ("[tid=".data ++ (d3 ++ (']' :: (ws4 ++ msg))))))) :=
    expectStr_append _ _
  have e7 : takeWhile1 isPySpace (ws2 ++ ("[frame=".data ++ (d2 ++ (']' :: (ws3 ++ ("[tid=".data ++ (d3 ++ (']' :: (ws4 ++ msg))))))))) = some (ws2, "[frame=".data ++ (d2 ++ (']' :: (ws3 ++ ("[tid=".data ++ (d3 ++ (']' :: (ws4 ++ msg)))))))) :=
    takeWhile1_run _ _ _ hws2 hws2a (fun c hc => by cases hc; rfl)
  have e5 : takeWhile1 Char.isDigit (d1 ++ (']' :: (ws2 ++ ("[frame=".data ++ (d2 ++ (']' :: (ws3 ++ ("[tid=".data ++ (d3 ++ (']' :: (ws4 ++ msg))))))))))) = some (d1, ']' :: (ws2 ++ ("[frame=".data ++ (d2 ++ (']' :: (ws3 ++ ("[tid=".data ++ (d3 ++ (']' :: (ws4 ++ msg)))))))))) :=
    takeWhile1_run _ _ _ hd1 hd1a (fun c hc => by cases hc; rfl)
  have e4 : expectStr "[mono_ms=".data ("[mono_ms=".data ++ (d1 ++ (']' :: (ws2 ++ ("[frame=".data ++ (d2 ++ (']' :: (ws3 ++ ("[tid=".data ++ (d3 ++ (']' :: (ws4 ++ msg)))))))))))) = some (d1 ++ (']' :: (ws2 ++ ("[frame=".data ++ (d2 ++ (']' :: (ws3 ++ ("[tid=".data ++ (d3 ++ (']' :: (ws4 ++ msg))))))))))) :=
    expectStr_append _ _
  have e3 : takeWhile1 isPySpace (ws1 ++ ("[mono_ms=".data ++ (d1 ++ (']' :: (ws2 ++ ("[frame=".data ++ (d2 ++ (']' :: (ws3 ++ ("[tid=".data ++ (d3 ++ (']' :: (ws4 ++ msg))))))))))))) = some (ws1, "[mono_ms=".data ++ (d1 ++ (']' :: (ws2 ++ ("[frame=".data ++ (d2 ++ (']' :: (ws3 ++ ("[tid=".data ++ (d3 ++ (']' :: (ws4 ++ msg)))))))))))) :=
    takeWhile1_run _ _ _ hws1 hws1a (fun c hc => by cases hc; rfl)
  have e2 : takeWhile1 (fun c => c != ']') (ts ++ (']' :: (ws1 ++ ("[mono_ms=".data ++ (d1 ++ (']' :: (ws2 ++ ("[frame=".data ++ (d2 ++ (']' :: (ws3 ++ ("[tid=".data ++ (d3 ++ (']' :: (ws4 ++ msg))))))))))))))) = some (ts, ']' :: (ws1 ++ ("[mono_ms=".data ++ (d1 ++ (']' :: (ws2 ++ ("[frame=".data ++ (d2 ++ (']' :: (ws3 ++ ("[tid=".data ++ (d3 ++ (']' :: (ws4 ++ msg)))))))))))))) :=
    takeWhile1_run _ _ _ hts hts2 (fun c hc => by cases hc; rfl)
  simp only [matchLine, expectChar_cons, e2, e3, e4, e5, e7, e8, e9, e11,
    e12, e13, e16, Option.bind_eq_bind, Option.some_bind]
  rfl

/-- Lifting of the Line Parser to an explicitly constructed line. -/
theorem parseLine_mk (file : String) (l : List Char) :
    parseLine file ⟨l⟩ =
      match matchLine l with
      | none => none
      | some m => some ⟨file, ⟨m.ts⟩, digitsToNat m.mono, digitsToNat m.frame,
          digitsToNat m.tid, ⟨m.msg⟩⟩ := rfl

/-- C8 as stated is false for its boundary case: a line that ends
immediately after the closing bracket of the tid group does not match
LINE_RE, because the pattern requires at least one whitespace character
before the (possibly empty) message. -/
theorem line_ending_at_tid_bracket_no_match :
    parseLine "a.log" "[t] [mono_ms=100] [frame=1] [tid=5]" = none := by
  decide

/-- C8 amended: a line made of the four bracket groups in the required
order, followed by at least one whitespace character and nothing else,
parses to an event record whose message attribute is the empty string;
without that trailing whitespace the line does not match. -/
theorem empty_message_line (file : String)
    (ts ws1 d1 ws2 d2 ws3 d3 ws4 : List Char)
    (hts : ts ≠ []) (hts2 : ∀ c ∈ ts, (c != ']') = true)
    (hws1 : ws1 ≠ []) (hws1a : ∀ c ∈ ws1, isPySpace c = true)
    (hd1 : d1 ≠ []) (hd1a : ∀ c ∈ d1, c.isDigit = true)
    (hws2 : ws2 ≠ []) (hws2a : ∀ c ∈ ws2, isPySpace c = true)
    (hd2 : d2 ≠ []) (hd2a : ∀ c ∈ d2, c.isDigit = true)
    (hws3 : ws3 ≠ []) (hws3a : ∀ c ∈ ws3, isPySpace c = true)
    (hd3 : d3 ≠ []) (hd3a : ∀ c ∈ d3, c.isDigit = true)
    (hws4 : ws4 ≠ []) (hws4a : ∀ c ∈ ws4, isPySpace c = true) :
    parseLine file ⟨'[' :: (ts ++ (']' :: (ws1 ++ ("[mono_ms=".data ++ (d1 ++ (']' :: (ws2 ++ ("[frame=".data ++ (d2 ++ (']' :: (ws3 ++ ("[tid=".data ++ (d3 ++ (']' :: ws4))))))))))))))⟩ =
      some ⟨file, ⟨ts⟩, digitsToNat d1, digitsToNat d2, digitsToNat d3,
        ""⟩ := by
  have h := matchLine_build ts ws1 d1 ws2 d2 ws3 d3 ws4 [] hts hts2
    hws1 hws1a hd1 hd1a hws2 hws2a hd2 hd2a hws3 hws3a hd3 hd3a hws4 hws4a
    (fun c hc => nomatch hc)
  rw [List.append_nil] at h
  rw [parseLine_mk, h]

theorem empty_message_line_witness :
    parseLine "f.log" "[t] [mono_ms=7] [frame=1] [tid=5] " =
      some ⟨"f.log", "t", 7, 1, 5, ""⟩ :=
  empty_message_line "f.log" "t".data [' '] "7".data [' '] "1".data [' ']
    "5".data [' '] (by decide) (by decide) (by decide) (by decide)
    (by decide) (by decide) (by decide) (by decide) (by decide) (by decide)
    (by decide) (by decide) (by decide) (by decide) (by decide) (by decide)

/-- Re-serialization of the four structured fields of a record back
into the bracketed wire form, each numeric field rendered in decimal. -/
def serializeFields (e : Event) : String :=
  "[" ++ e.ts ++ "] [mono_ms=" ++ toString e.mono_ms ++ "] [frame=" ++
    toString e.frame ++ "] [tid=" ++ toString e.tid ++ "]"

/-- C9 as stated is false: a matching line whose mono_ms field carries
leading zeros parses successfully, but re-serializing the four
structured fields renders the normalized integer and so does not
reproduce the original bracketed prefix. -/
theorem reserialize_leading_zeros_fails :
    parseLine "f.log" "[t] [mono_ms=007] [frame=1] [tid=5] x" =
      some ⟨"f.log", "t", 7, 1, 5, "x"⟩ ∧
    serializeFields ⟨"f.log", "t", 7, 1, 5, "x"⟩ =
      "[t] [mono_ms=7] [frame=1] [tid=5]" ∧
    serializeFields ⟨"f.log", "t", 7, 1, 5, "x"⟩ ≠
      "[t] [mono_ms=007] [frame=1] [tid=5]" := by
  refine ⟨by decide, by decide, by decide⟩

/-- C9 amended: for a matching line whose bracket groups are separated
by exactly one space and whose numeric fields are written canonically
(their digit text equals the decimal rendering of their value, i.e. no
leading zeros), parsing and re-serializing the four structured fields
reproduces the line's original bracketed prefix exactly. -/
theorem parse_reserialize_prefix (file : String) (ts d1 d2 d3 msg : List Char)
    (hts : ts ≠ []) (hts2 : ∀ c ∈ ts, (c != ']') = true)
    (hd1 : d1 ≠ []) (hd1a : ∀ c ∈ d1, c.isDigit = true)
    (hc1 : toString (digitsToNat d1) = ⟨d1⟩)
    (hd2 : d2 ≠ []) (hd2a : ∀ c ∈ d2, c.isDigit = true)
    (hc2 : toString (digitsToNat d2) = ⟨d2⟩)
    (hd3 : d3 ≠ []) (hd3a : ∀ c ∈ d3, c.isDigit = true)
    (hc3 : toString (digitsToNat d3) = ⟨d3⟩)
    (hmsg : ∀ c, msg.head? = some c → isPySpace c = false) :
    parseLine file ⟨'[' :: (ts ++ (']' :: (' ' :: ("[mono_ms=".data ++ (d1 ++ (']' :: (' ' :: ("[frame=".data ++ (d2 ++ (']' :: (' ' :: ("[tid=".data ++ (d3 ++ (']' :: (' ' :: msg)))))))))))))))⟩ =
      some ⟨file, ⟨ts⟩, digitsToNat d1, digitsToNat d2, digitsToNat d3,
        ⟨msg⟩⟩ ∧
    serializeFields ⟨file, ⟨ts⟩, digitsToNat d1, digitsToNat d2,
        digitsToNat d3, ⟨msg⟩⟩ =
      ⟨'[' :: (ts ++ ("] [mono_ms=".data ++ (d1 ++ ("] [frame=".data ++ (d2 ++ ("] [tid=".data ++ (d3 ++ "]".data)))))))⟩ := by
  have h := matchLine_build ts [' '] d1 [' '] d2 [' '] d3 [' '] msg hts hts2
    (by decide) (by decide) hd1 hd1a (by decide) (by decide) hd2 hd2a
    (by decide) (by decide) hd3 hd3a (by decide) (by decide) hmsg
  simp only [List.singleton_append] at h
  constructor
  · rw [parseLine_mk, h]
  · refine String.toList_inj.mp ?_
    simp only [serializeFields]
    rw [hc1, hc2, hc3]
    simp [String.data_append, List.append_assoc]

theorem parse_reserialize_prefix_witness :
    parseLine "f.log" "[t] [mono_ms=7] [frame=1] [tid=5] x" =
      some ⟨"f.log", "t", 7, 1, 5, "x"⟩ ∧
    serializeFields ⟨"f.log", "t", 7, 1, 5, "x"⟩ =
      "[t] [mono_ms=7] [frame=1] [tid=5]" :=
  parse_reserialize_prefix "f.log" "t".data "7".data "1".data "5".data
    "x".data (by decide) (by decide) (by decide) (by decide) (by decide)
    (by decide) (by decide) (by decide) (by decide) (by decide) (by decide)
    (fun c hc => by cases hc; rfl)

theorem digitsToNat_cons_zero (ds : List Char) :
    digitsToNat ('0' :: ds) = digitsToNat ds := rfl

/-- C10: int() normalization in the Line Parser: a matching line whose
mono_ms digit text carries a leading zero produces exactly the same
event record as the line with the canonical digit text, so textually
different lines yield records with identical values and hence identical
sort keys; only the integer value, never the digit text, is stored. -/
theorem parse_normalizes_leading_zeros (file : String)
    (ts d1 d2 d3 msg : List Char)
    (hts : ts ≠ []) (hts2 : ∀ c ∈ ts, (c != ']') = true)
    (hd1 : d1 ≠ []) (hd1a : ∀ c ∈ d1, c.isDigit = true)
    (hd2 : d2 ≠ []) (hd2a : ∀ c ∈ d2, c.isDigit = true)
    (hd3 : d3 ≠ []) (hd3a : ∀ c ∈ d3, c.isDigit = true)
    (hmsg : ∀ c, msg.head? = some c → isPySpace c = false) :
    parseLine file ⟨'[' :: (ts ++ (']' :: (' ' :: ("[mono_ms=".data ++ ('0' :: (d1 ++ (']' :: (' ' :: ("[frame=".data ++ (d2 ++ (']' :: (' ' :: ("[tid=".data ++ (d3 ++ (']' :: (' ' :: msg))))))))))))))))⟩ =
      parseLine file ⟨'[' :: (ts ++ (']' :: (' ' :: ("[mono_ms=".data ++ (d1 ++ (']' :: (' ' :: ("[frame=".data ++ (d2 ++ (']' :: (' ' :: ("[tid=".data ++ (d3 ++ (']' :: (' ' :: msg)))))))))))))))⟩ ∧
    parseLine file ⟨'[' :: (ts ++ (']' :: (' ' :: ("[mono_ms=".data ++ (d1 ++ (']' :: (' ' :: ("[frame=".data ++ (d2 ++ (']' :: (' ' :: ("[tid=".data ++ (d3 ++ (']' :: (' ' :: msg)))))))))))))))⟩ =
      some ⟨file, ⟨ts⟩, digitsToNat d1, digitsToNat d2, digitsToNat d3,
        ⟨msg⟩⟩ := by
  have h1 := matchLine_build ts [' '] ('0' :: d1) [' '] d2 [' '] d3 [' '] msg
    hts hts2 (by decide) (by decide) (List.cons_ne_nil _ _)
    (fun c hc => by
      rcases List.mem_cons.mp hc with rfl | hmem
      · rfl
      · exact hd1a c hmem)
    (by decide) (by decide) (hd2) (hd2a) (by decide) (by decide) (hd3) (hd3a)
    (by decide) (by decide) hmsg
  have h2 := matchLine_build ts [' '] d1 [' '] d2 [' '] d3 [' '] msg
    hts hts2 (by decide) (by decide) hd1 hd1a (by decide) (by decide)
    hd2 hd2a (by decide) (by decide) hd3 hd3a (by decide) (by decide) hmsg
  constructor
  · simp only [parseLine_mk]
    simp only [List.cons_append, List.nil_append, List.singleton_append]
      at h1 h2 ⊢
    simp only [h1, h2, digitsToNat_cons_zero]
  · simp only [parseLine_mk]
    simp only [List.cons_append, List.nil_append, List.singleton_append]
      at h2 ⊢
    simp only [h2]

theorem parse_normalizes_leading_zeros_witness :
    parseLine "f.log" "[t] [mono_ms=07] [frame=1] [tid=5] x" =
      parseLine "f.log" "[t] [mono_ms=7] [frame=1] [tid=5] x" ∧
    parseLine "f.log" "[t] [mono_ms=7] [frame=1] [tid=5] x" =
      some ⟨"f.log", "t", 7, 1, 5, "x"⟩ :=
  parse_normalizes_leading_zeros "f.log" "t".data "7".data "1".data "5".data
    "x".data (by decide) (by decide) (by decide) (by decide) (by decide)
    (by decide) (by decide) (by decide) (fun c hc => by cases hc; rfl)
